import Mathlib

/-!
Verification of the PPO implementation (algorithms/PPO.py).

The development shallowly embeds the core of the implementation: the
generalized-advantage-estimation computation, the rollout buffer, the
constructor's divisibility check, the minibatch partitioning of the
update loop, the clipped loss, and the done-flag combination of the
training loop.  Tensors of leading shape (horizon, num_envs, ...) are
modelled as functions from time (and unit / component indices) to real
numbers; all PyTorch operations used by the code are elementwise in the
trailing axes, so elementwise semantics are modelled pointwise.
-/

namespace RL

/-! ### Definitions: Generalized Advantage Estimation (PPO._compute_advantages)

The per-unit scalar computation.  All tensor operations in
`_compute_advantages` (roll, +, *, -, the backward loop) act elementwise
in the unit axis, so the scalar model fixes one unit and works with
sequences indexed by time; the vectorized version applies it pointwise
per unit. -/

/-- State of the backward loop of `_compute_advantages`: the
`advantages` array being filled (whole function, initially zeros), the
`last_advantage` binding and the `next_step_terminates` binding. -/
structure AdvState where
  adv : ℕ → ℝ
  last : ℝ
  nst : ℝ

/-- One iteration of the backward loop at index `t`
(`advantages[t] = last_advantage = deltas[t] + gamma * gae_lambda *
last_advantage * (1 - next_step_terminates)` followed by
`next_step_terminates = dones[t]`). -/
noncomputable def advStep (g l : ℝ) (deltas dones : ℕ → ℝ) (t : ℕ) (s : AdvState) : AdvState :=
  let a := deltas t + g * l * s.last * (1 - s.nst)
  ⟨Function.update s.adv t a, a, dones t⟩

/-- The backward loop `for t in reversed(range(k))`: fuel `k` means the
iterations `t = k-1, k-2, ..., 0` remain to be executed. -/
noncomputable def advLoop (g l : ℝ) (deltas dones : ℕ → ℝ) : ℕ → AdvState → AdvState
  | 0, s => s
  | k + 1, s => advLoop g l deltas dones k (advStep g l deltas dones k s)

/-- The next-value sequence: `values.roll(-1, dims=0)` (so slot `t`
holds `values[(t+1) % T]`) with the final slot `T-1` overwritten by the
bootstrap value `critic(next_states[-1])`; the critic being an opaque
collaborator, the bootstrap value is a parameter. -/
def nextValuesOf (values : ℕ → ℝ) (T : ℕ) (bootstrap : ℝ) : ℕ → ℝ :=
  fun t => if t = T - 1 then bootstrap else values ((t + 1) % T)

/-- The detached TD residuals
`deltas = (rewards + gamma * next_values - values).detach()`
(detaching does not change the stored numbers). -/
noncomputable def deltasOf (g : ℝ) (T : ℕ) (rewards values : ℕ → ℝ) (bootstrap : ℝ) : ℕ → ℝ :=
  fun t => rewards t + g * nextValuesOf values T bootstrap t - values t

/-- `PPO._compute_advantages` for one unit: the advantages array starts
as zeros, `last_advantage` starts as the (zero) last row and
`next_step_terminates` starts as `dones[-1]`; then the backward loop
runs over `t = T-1, ..., 0`. -/
noncomputable def computeAdvantages (g l : ℝ) (T : ℕ) (rewards values dones : ℕ → ℝ)
    (bootstrap : ℝ) : ℕ → ℝ :=
  (advLoop g l (deltasOf g T rewards values bootstrap) dones T
    ⟨fun _ => 0, 0, dones (T - 1)⟩).adv

/-- Closed form of the backward recursion: `gaeClosed t` is the value
the loop stores at index `t`, defined top-down from `t = T`. -/
noncomputable def gaeClosed (g l : ℝ) (deltas dones : ℕ → ℝ) (T : ℕ) (t : ℕ) : ℝ :=
  if h : t < T then
    deltas t + g * l * gaeClosed g l deltas dones T (t + 1) *
      (1 - (if t + 1 < T then dones (t + 1) else dones (T - 1)))
  else 0
termination_by T - t
decreasing_by omega

/-- `PPO._compute_advantages` over the whole `(horizon, units)` block:
the tensor computation is elementwise in the unit axis, so it is the
scalar computation applied to each unit's sequences.  `bootstrap u` is
the critic's output on unit `u` of `next_states[-1]`. -/
noncomputable def computeAdvantagesV (g l : ℝ) (T : ℕ) (rewards values dones : ℕ → ℕ → ℝ)
    (bootstrap : ℕ → ℝ) : ℕ → ℕ → ℝ :=
  fun t u => computeAdvantages g l T
    (fun s => rewards s u) (fun s => values s u) (fun s => dones s u) (bootstrap u) t

/-! ### Definitions: the rollout buffer (class Buffer) -/

/-- Row-major merge of the two leading axes of a contiguous
`(max_len, num_envs, ...)` tensor, as performed by
`view((max_len * num_envs, ...))` / `flatten(end_dim=1)` / `flatten()`:
row `k` of the result is row `(k / num_envs, k % num_envs)` of the
input. -/
def flat2 {α : Type} (N : ℕ) (f : ℕ → ℕ → α) : ℕ → α :=
  fun k => f (k / N) (k % N)

/-- The PPO memory buffer.  Each storage tensor of leading shape
`(max_len, num_envs, ...)` is a function of time, unit and trailing
component; `i` is the write cursor. -/
structure Buffer where
  states : ℕ → ℕ → ℕ → ℝ
  next_states : ℕ → ℕ → ℕ → ℝ
  dones : ℕ → ℕ → ℕ → ℝ
  actions : ℕ → ℕ → ℕ → ℝ
  rewards : ℕ → ℕ → ℕ → ℝ
  values : ℕ → ℕ → ℕ → ℝ
  log_probs : ℕ → ℕ → ℕ → ℝ
  action_masks : ℕ → ℕ → ℕ → ℝ
  num_envs : ℕ
  max_len : ℕ
  i : ℕ

/-- `Buffer.__init__`: the eight tensors come from `torch.empty`, i.e.
hold arbitrary (uninitialized) values, here taken as parameters; the
cursor starts at `0`. -/
def Buffer.init (num_envs max_len : ℕ)
    (mem_states mem_next_states mem_dones mem_actions mem_rewards mem_values
      mem_log_probs mem_action_masks : ℕ → ℕ → ℕ → ℝ) : Buffer :=
  { states := mem_states, next_states := mem_next_states, dones := mem_dones,
    actions := mem_actions, rewards := mem_rewards, values := mem_values,
    log_probs := mem_log_probs, action_masks := mem_action_masks,
    num_envs := num_envs, max_len := max_len, i := 0 }

/-- `Buffer.is_full`: `self.i == self.max_len`. -/
def Buffer.is_full (b : Buffer) : Bool :=
  b.i == b.max_len

/-- `Buffer.push`: asserts `self.i < self.max_len` (modelled as `none`
on failure), writes every field row at the cursor — the action-mask row
only when an action mask is given — and advances the cursor. -/
def Buffer.push (b : Buffer)
    (states next_states dones actions rewards values log_probs : ℕ → ℕ → ℝ)
    (action_mask : Option (ℕ → ℕ → ℝ)) : Option Buffer :=
  if b.i < b.max_len then
    some { b with
      states := Function.update b.states b.i states,
      next_states := Function.update b.next_states b.i next_states,
      dones := Function.update b.dones b.i dones,
      actions := Function.update b.actions b.i actions,
      rewards := Function.update b.rewards b.i rewards,
      values := Function.update b.values b.i values,
      log_probs := Function.update b.log_probs b.i log_probs,
      action_masks := match action_mask with
        | some m => Function.update b.action_masks b.i m
        | none => b.action_masks,
      i := b.i + 1 }
  else none

/-- `Buffer.get_all`: the eight tensors in time-major shape. -/
def Buffer.get_all (b : Buffer) :=
  (b.states, b.next_states, b.dones, b.actions, b.rewards, b.values,
    b.log_probs, b.action_masks)

/-- `Buffer.get_all_flattened`: the eight tensors with time and unit
axes merged into one batch axis of size `max_len * num_envs`. -/
def Buffer.get_all_flattened (b : Buffer) :=
  (flat2 b.num_envs b.states, flat2 b.num_envs b.next_states,
    flat2 b.num_envs b.dones, flat2 b.num_envs b.actions,
    flat2 b.num_envs b.rewards, flat2 b.num_envs b.values,
    flat2 b.num_envs b.log_probs, flat2 b.num_envs b.action_masks)

/-- `Buffer.reset`: sets the cursor back to `0`; nothing else. -/
def Buffer.reset (b : Buffer) : Buffer :=
  { b with i := 0 }

/-! ### Definitions: constructor configuration check (PPO.__init__) -/

/-- `self.batch_size = self.horizon * self.num_envs * self.num_agents`. -/
def ppoBatchSize (horizon num_envs num_agents : ℕ) : ℕ :=
  horizon * num_envs * num_agents

/-- The constructor's divisibility assertion:
`assert self.horizon % self.minibatch_size == 0`. -/
def horizonDivisibilityCheck (horizon minibatch_size : ℕ) : Bool :=
  horizon % minibatch_size == 0

/-- `self.minibatch_nb_per_batch = self.batch_size // self.minibatch_size`. -/
def minibatchNbPerBatch (batch_size minibatch_size : ℕ) : ℕ :=
  batch_size / minibatch_size

/-! ### Definitions: the update procedure (PPO._update_networks) -/

/-- Mean of the first `n` entries of a batch (`Tensor.mean`). -/
noncomputable def batchMean (n : ℕ) (f : ℕ → ℝ) : ℝ :=
  (∑ j ∈ Finset.range n, f j) / n

/-- Sample standard deviation of the first `n` entries of a batch
(`Tensor.std`, unbiased: the sum of squared deviations is divided by
`n - 1`). -/
noncomputable def batchStd (n : ℕ) (f : ℕ → ℝ) : ℝ :=
  Real.sqrt ((∑ j ∈ Finset.range n, (f j - batchMean n f) ^ 2) / ((n : ℝ) - 1))

/-- Advantage normalization:
`advantages = (advantages - advantages.mean()) / (advantages.std() + 1e-8)`. -/
noncomputable def normalizedAdvantages (n : ℕ) (adv : ℕ → ℝ) : ℕ → ℝ :=
  fun k => (adv k - batchMean n adv) / (batchStd n adv + 1e-8)

/-- The critic's regression targets as built by `_update_networks`:
`returns = advantages + values` evaluated after the normalization line,
on the flattened batch of size `T * N`. -/
noncomputable def updateReturns (g l : ℝ) (T N : ℕ) (rewards values dones : ℕ → ℕ → ℝ)
    (bootstrap : ℕ → ℝ) : ℕ → ℝ :=
  fun k =>
    normalizedAdvantages (T * N)
      (flat2 N (computeAdvantagesV g l T rewards values dones bootstrap)) k
      + flat2 N values k

/-- `torch.clamp(x, lo, hi)`: `min(max(x, lo), hi)`. -/
noncomputable def clampR (x lo hi : ℝ) : ℝ :=
  min (max x lo) hi

/-- The probability ratio
`r = torch.exp(new_log_probs - old_log_probs)`, per minibatch entry. -/
noncomputable def ratioOf (newLP oldLP : ℕ → ℝ) : ℕ → ℝ :=
  fun j => Real.exp (newLP j - oldLP j)

/-- The clipped surrogate objective
`L_clip = torch.min(r * A, torch.clamp(r, 1-eps, 1+eps) * A).mean()`
over a minibatch of `M` entries. -/
noncomputable def LclipOf (M : ℕ) (newLP oldLP adv : ℕ → ℝ) (eps : ℝ) : ℝ :=
  batchMean M (fun j =>
    min (ratioOf newLP oldLP j * adv j)
      (clampR (ratioOf newLP oldLP j) (1 - eps) (1 + eps) * adv j))

/-- The value loss `L_vf = MSELoss(new_values, returns)` (mean squared
error, mean reduction) over a minibatch of `M` entries. -/
noncomputable def LvfOf (M : ℕ) (newValues ret : ℕ → ℝ) : ℝ :=
  batchMean M (fun j => (newValues j - ret j) ^ 2)

/-- The entropy bonus `L_S = new_entropy.mean()` over a minibatch of
`M` entries. -/
noncomputable def LSOf (M : ℕ) (entropy : ℕ → ℝ) : ℝ :=
  batchMean M entropy

/-- The quantity passed to `backward()`:
`- L_clip + vf_coef * L_vf - ent_coef * L_S`. -/
noncomputable def ppoLoss (M : ℕ) (newLP oldLP adv newValues ret entropy : ℕ → ℝ)
    (eps vf_coef ent_coef : ℝ) : ℝ :=
  -LclipOf M newLP oldLP adv eps + vf_coef * LvfOf M newValues ret
    - ent_coef * LSOf M entropy

/-! ### Definitions: minibatch schedule of the update loop -/

/-- `minibatch_indices = indices[start:end]` with `start = m *
minibatch_size`: the `m`-th contiguous slice of the permuted index
vector `perm`. -/
def minibatchOf (perm : ℕ → ℕ) (minibatch_size m : ℕ) : List ℕ :=
  (List.range minibatch_size).map (fun j => perm (m * minibatch_size + j))

/-- One epoch: the minibatches `m = 0, ..., minibatch_nb_per_batch - 1`
cut from one permutation of the batch indices. -/
def epochMinibatches (perm : ℕ → ℕ) (minibatch_size nb : ℕ) : List (List ℕ) :=
  (List.range nb).map (fun m => minibatchOf perm minibatch_size m)

/-- The full schedule of `_update_networks`: `num_epochs` epochs, epoch
`e` using the fresh permutation `perms e` drawn by `torch.randperm`;
each minibatch triggers exactly one actor and one critic optimizer
step. -/
def updateMinibatches (perms : ℕ → ℕ → ℕ) (num_epochs minibatch_size nb : ℕ) :
    List (List ℕ) :=
  ((List.range num_epochs).map (fun e => epochMinibatches (perms e) minibatch_size nb)).flatten

/-! ### Definitions: done-flag combination in the training loop (PPO.train)

`new_obs, rewards, dones, truncateds, new_infos = self.envs.step(...)`
returns `dones` and `truncateds` as NumPy arrays of dtype `bool` (the
Gymnasium vector-environment contract), and NumPy addition on boolean
arrays is elementwise logical disjunction, not integer addition.  The
sum `dones + truncateds` is modelled per element accordingly; the
result is then stored as a float tensor (`.float()`). -/

/-- `dones = dones + truncateds` on one boolean element: NumPy boolean
addition, i.e. logical or. -/
def npBoolAdd (done truncated : Bool) : Bool :=
  done || truncated

/-- The float done flag pushed into the buffer for one unit:
`torch.from_numpy(dones).float()` applied to the combined flag. -/
noncomputable def storedDone (done truncated : Bool) : ℝ :=
  if npBoolAdd done truncated then 1 else 0

/-! ### Definitions: concrete data used by witnesses and counterexamples -/

/-- All-zero uninitialized memory block. -/
noncomputable def zMem : ℕ → ℕ → ℕ → ℝ :=
  fun _ _ _ => 0

/-- Memory block holding 7 everywhere (stale mask data). -/
noncomputable def sevenMem : ℕ → ℕ → ℕ → ℝ :=
  fun _ _ _ => 7

/-- All-zero pushed row. -/
noncomputable def zRow : ℕ → ℕ → ℝ :=
  fun _ _ => 0

/-- All-zero scalar field over (time, unit). -/
noncomputable def zUnit : ℕ → ℕ → ℝ :=
  fun _ _ => 0

/-- All-zero per-unit bootstrap values. -/
noncomputable def zBoot : ℕ → ℝ :=
  fun _ => 0

/-- All-zero time-indexed sequence. -/
noncomputable def zSeq : ℕ → ℝ :=
  fun _ => 0

/-- Reward field 2, 0, -2 at timesteps 0, 1, 2 (any unit). -/
noncomputable def cexRewards : ℕ → ℕ → ℝ :=
  fun t _ => if t = 0 then 2 else if t = 1 then 0 else -2

/-- Identity permutation for every epoch. -/
def idPerm : ℕ → ℕ → ℕ :=
  fun _ j => j

/-! ### Helper lemmas about the GAE loop -/

theorem gaeClosed_eq (g l : ℝ) (deltas dones : ℕ → ℝ) (T t : ℕ) :
    gaeClosed g l deltas dones T t =
      if t < T then
        deltas t + g * l * gaeClosed g l deltas dones T (t + 1) *
          (1 - (if t + 1 < T then dones (t + 1) else dones (T - 1)))
      else 0 := by
  rw [gaeClosed]
  by_cases h : t < T <;> simp [h]

theorem gaeClosed_of_ge (g l : ℝ) (deltas dones : ℕ → ℝ) (T t : ℕ) (h : T ≤ t) :
    gaeClosed g l deltas dones T t = 0 := by
  rw [gaeClosed_eq]
  simp [Nat.not_lt.mpr h]

/-- Invariant of the backward loop: entering the loop with `k`
iterations left, incoming `last_advantage = gaeClosed k` and incoming
`next_step_terminates` equal to the done flag the iteration `t = k - 1`
must use, the loop fills slots `0, ..., k-1` with the closed form and
leaves the rest of the array untouched. -/
theorem advLoop_adv (g l : ℝ) (deltas dones : ℕ → ℝ) (T : ℕ) :
    ∀ k, k ≤ T → ∀ s : AdvState,
      s.last = gaeClosed g l deltas dones T k →
      s.nst = (if k < T then dones k else dones (T - 1)) →
      ∀ t, (advLoop g l deltas dones k s).adv t =
        if t < k then gaeClosed g l deltas dones T t else s.adv t := by
  intro k
  induction k with
  | zero =>
    intro _ s _ _ t
    simp [advLoop]
  | succ k ih =>
    intro hk s hlast hnst t
    have hkT : k < T := Nat.lt_of_lt_of_le (Nat.lt_succ_self k) hk
    have ha : deltas k + g * l * s.last * (1 - s.nst) =
        gaeClosed g l deltas dones T k := by
      rw [hlast, hnst, gaeClosed_eq g l deltas dones T k]
      simp [hkT]
    have hrec := ih (Nat.le_of_succ_le hk)
      (advStep g l deltas dones k s)
      (by simp [advStep, ha])
      (by simp [advStep, hkT])
    have hstep : (advLoop g l deltas dones (k + 1) s).adv t =
        (advLoop g l deltas dones k (advStep g l deltas dones k s)).adv t := rfl
    rw [hstep, hrec t]
    by_cases h1 : t < k
    · simp [h1, Nat.lt_succ_of_lt h1]
    · by_cases h2 : t = k
      · subst h2
        simp [advStep, ha, Function.update, Nat.lt_succ_self]
      · have h3 : ¬ t < k + 1 := by omega
        simp [h1, h3, advStep, Function.update, h2]

/-- The computed advantages agree with the closed-form recursion on
`t < T` and are `0` (the untouched zero initialization) elsewhere. -/
theorem computeAdvantages_eq (g l : ℝ) (T : ℕ) (rewards values dones : ℕ → ℝ)
    (bootstrap : ℝ) (t : ℕ) :
    computeAdvantages g l T rewards values dones bootstrap t =
      if t < T then
        gaeClosed g l (deltasOf g T rewards values bootstrap) dones T t
      else 0 := by
  unfold computeAdvantages
  rw [advLoop_adv g l (deltasOf g T rewards values bootstrap) dones T T le_rfl
    ⟨fun _ => 0, 0, dones (T - 1)⟩
    (by simp [gaeClosed_of_ge])
    (by simp)
    t]

/-! ### Claim C1 -/

/-- C1: for a full buffer of horizon `T`, the advantage computation
builds the next-value sequence as the stored values shifted back by one
timestep with the final slot replaced by the bootstrap value, computes
the TD residual `delta[t] = reward[t] + gamma * next_value[t] -
value[t]` for every `t`, and fills the advantages by the backward
recursion `advantage[t] = delta[t] + gamma * gae_lambda *
advantage[t+1] * (1 - done_next[t])` with `advantage[T] = 0`, where
`done_next[t]` is `dones[t+1]` for `t < T-1` and `dones[T-1]` for
`t = T-1`. -/
theorem C1_gae_computation (g l bootstrap : ℝ) (T t : ℕ)
    (rewards values dones : ℕ → ℝ) (ht : t < T) :
    (t < T - 1 → nextValuesOf values T bootstrap t = values (t + 1)) ∧
    nextValuesOf values T bootstrap (T - 1) = bootstrap ∧
    deltasOf g T rewards values bootstrap t =
      rewards t + g * nextValuesOf values T bootstrap t - values t ∧
    computeAdvantages g l T rewards values dones bootstrap T = 0 ∧
    computeAdvantages g l T rewards values dones bootstrap t =
      deltasOf g T rewards values bootstrap t +
        g * l * computeAdvantages g l T rewards values dones bootstrap (t + 1) *
          (1 - (if t + 1 < T then dones (t + 1) else dones (T - 1))) := by
  refine ⟨?_, ?_, rfl, ?_, ?_⟩
  · intro h
    have h1 : t ≠ T - 1 := by omega
    have h2 : t + 1 < T := by omega
    simp [nextValuesOf, h1, Nat.mod_eq_of_lt h2]
  · simp [nextValuesOf]
  · rw [computeAdvantages_eq]
    simp
  · rw [computeAdvantages_eq, computeAdvantages_eq]
    by_cases h1 : t + 1 < T
    · simp only [ht, h1, if_true]
      rw [gaeClosed_eq g l (deltasOf g T rewards values bootstrap) dones T t]
      simp [ht, h1]
    · have hT1 : ¬ t + 1 < T := h1
      simp only [ht, hT1, if_true, if_false]
      rw [gaeClosed_eq g l (deltasOf g T rewards values bootstrap) dones T t]
      rw [gaeClosed_of_ge g l (deltasOf g T rewards values bootstrap) dones T (t + 1) (by omega)]
      simp [ht, hT1]

/-- C1 witness: the statement instantiated at horizon 2, timestep 0,
gamma 1, lambda 1, bootstrap 5, rewards n, zero values and zero done
flags. -/
theorem C1_gae_computation_witness :
    (0 < 2 - 1 → nextValuesOf zSeq 2 5 0 = zSeq (0 + 1)) ∧
    nextValuesOf zSeq 2 5 (2 - 1) = 5 ∧
    deltasOf 1 2 (fun n => (n : ℝ)) zSeq 5 0 =
      ((0 : ℕ) : ℝ) + 1 * nextValuesOf zSeq 2 5 0 - zSeq 0 ∧
    computeAdvantages 1 1 2 (fun n => (n : ℝ)) zSeq zSeq 5 2 = 0 ∧
    computeAdvantages 1 1 2 (fun n => (n : ℝ)) zSeq zSeq 5 0 =
      deltasOf 1 2 (fun n => (n : ℝ)) zSeq 5 0 +
        1 * 1 * computeAdvantages 1 1 2 (fun n => (n : ℝ)) zSeq zSeq 5 (0 + 1) *
          (1 - (if 0 + 1 < 2 then zSeq (0 + 1) else zSeq (2 - 1))) :=
  C1_gae_computation 1 1 5 2 0 (fun n => (n : ℝ)) zSeq zSeq (by norm_num)

/-! ### Claim C8 -/

/-- C8: with `gae_lambda = 0` the computed advantage at every timestep
of a full buffer equals the one-step TD residual of that timestep, and
with `gamma = 0` it equals the immediate reward minus the stored value
estimate. -/
theorem C8_gae_degenerate (g l bootstrap : ℝ) (T t : ℕ)
    (rewards values dones : ℕ → ℝ) (ht : t < T) :
    computeAdvantages g 0 T rewards values dones bootstrap t =
      deltasOf g T rewards values bootstrap t ∧
    computeAdvantages 0 l T rewards values dones bootstrap t =
      rewards t - values t := by
  constructor
  · rw [computeAdvantages_eq]
    simp only [ht, if_true]
    rw [gaeClosed_eq]
    simp [ht]
  · rw [computeAdvantages_eq]
    simp only [ht, if_true]
    rw [gaeClosed_eq]
    simp [ht, deltasOf]

/-- C8 witness: the statement instantiated at horizon 3, timestep 1,
gamma 1, lambda 1, bootstrap 4, rewards n, values 0, dones 0. -/
theorem C8_gae_degenerate_witness :
    computeAdvantages 1 0 3 (fun n => (n : ℝ)) zSeq zSeq 4 1 =
      deltasOf 1 3 (fun n => (n : ℝ)) zSeq 4 1 ∧
    computeAdvantages 0 1 3 (fun n => (n : ℝ)) zSeq zSeq 4 1 =
      ((1 : ℕ) : ℝ) - zSeq 1 :=
  C8_gae_degenerate 1 1 4 3 1 (fun n => (n : ℝ)) zSeq zSeq (by norm_num)

/-! ### Claim C4 -/

/-- C4: the write cursor starts at 0, each successful push increments
it by exactly 1 and keeps it within the horizon, `is_full()` holds iff
the cursor equals the horizon, pushing when the cursor equals the
horizon fails with the buffer-full error, and `reset()` sets the cursor
back to 0 while leaving every field tensor (and the shape parameters)
untouched. -/
theorem C4_buffer_cursor (ne ml : ℕ)
    (m1 m2 m3 m4 m5 m6 m7 m8 : ℕ → ℕ → ℕ → ℝ) (b : Buffer)
    (s ns d a r v lp : ℕ → ℕ → ℝ) (mask : Option (ℕ → ℕ → ℝ)) :
    (Buffer.init ne ml m1 m2 m3 m4 m5 m6 m7 m8).i = 0 ∧
    (b.is_full = true ↔ b.i = b.max_len) ∧
    (b.i < b.max_len →
      (b.push s ns d a r v lp mask).isSome = true ∧
      ((b.push s ns d a r v lp mask).getD b).i = b.i + 1 ∧
      ((b.push s ns d a r v lp mask).getD b).i ≤ b.max_len) ∧
    (b.i = b.max_len → b.push s ns d a r v lp mask = none) ∧
    b.reset.i = 0 ∧
    b.reset.states = b.states ∧ b.reset.next_states = b.next_states ∧
    b.reset.dones = b.dones ∧ b.reset.actions = b.actions ∧
    b.reset.rewards = b.rewards ∧ b.reset.values = b.values ∧
    b.reset.log_probs = b.log_probs ∧ b.reset.action_masks = b.action_masks ∧
    b.reset.num_envs = b.num_envs ∧ b.reset.max_len = b.max_len := by
  refine ⟨rfl, ?_, ?_, ?_, rfl, rfl, rfl, rfl, rfl, rfl, rfl, rfl, rfl, rfl, rfl⟩
  · simp [Buffer.is_full]
  · intro h
    refine ⟨?_, ?_, ?_⟩
    · simp [Buffer.push, h]
    · simp [Buffer.push, h]
    · simp [Buffer.push, h]
      omega
  · intro h
    simp [Buffer.push, h]

/-- C4 witness: a fresh buffer's cursor is 0, a buffer of horizon 4
whose cursor has reached 4 reports full, and a 5th push into it fails
with the buffer-full error. -/
theorem C4_buffer_cursor_witness :
    (Buffer.init 1 4 zMem zMem zMem zMem zMem zMem zMem zMem).i = 0 ∧
    (Buffer.mk zMem zMem zMem zMem zMem zMem zMem zMem 1 4 4).is_full = true ∧
    (Buffer.mk zMem zMem zMem zMem zMem zMem zMem zMem 1 4 4).push
      zRow zRow zRow zRow zRow zRow zRow none = none := by
  have h := C4_buffer_cursor 1 4 zMem zMem zMem zMem zMem zMem zMem zMem
    (Buffer.mk zMem zMem zMem zMem zMem zMem zMem zMem 1 4 4)
    zRow zRow zRow zRow zRow zRow zRow none
  exact ⟨h.1, (h.2.1).mpr rfl, h.2.2.2.1 rfl⟩

/-! ### Claim C5 -/

/-- C5: `get_all_flattened()` merges the time and unit axes of each
field into one batch axis of size `max_len * num_envs` exactly and the
merge is order-preserving: flattened index `k` (for `k` in range) is
the `get_all()` entry at timestep `k / num_envs` and unit
`k % num_envs`, both of which are in range, and conversely the entry at
timestep `t` and unit `u` appears at the in-range flattened index
`t * num_envs + u`. -/
theorem C5_flatten_order (b : Buffer) (k t u : ℕ)
    (hN : 0 < b.num_envs) (hk : k < b.max_len * b.num_envs)
    (ht : t < b.max_len) (hu : u < b.num_envs) :
    k / b.num_envs < b.max_len ∧ k % b.num_envs < b.num_envs ∧
    t * b.num_envs + u < b.max_len * b.num_envs ∧
    b.get_all_flattened.1 k = b.get_all.1 (k / b.num_envs) (k % b.num_envs) ∧
    b.get_all_flattened.2.1 k = b.get_all.2.1 (k / b.num_envs) (k % b.num_envs) ∧
    b.get_all_flattened.2.2.1 k = b.get_all.2.2.1 (k / b.num_envs) (k % b.num_envs) ∧
    b.get_all_flattened.2.2.2.1 k = b.get_all.2.2.2.1 (k / b.num_envs) (k % b.num_envs) ∧
    b.get_all_flattened.2.2.2.2.1 k =
      b.get_all.2.2.2.2.1 (k / b.num_envs) (k % b.num_envs) ∧
    b.get_all_flattened.2.2.2.2.2.1 k =
      b.get_all.2.2.2.2.2.1 (k / b.num_envs) (k % b.num_envs) ∧
    b.get_all_flattened.2.2.2.2.2.2.1 k =
      b.get_all.2.2.2.2.2.2.1 (k / b.num_envs) (k % b.num_envs) ∧
    b.get_all_flattened.2.2.2.2.2.2.2 k =
      b.get_all.2.2.2.2.2.2.2 (k / b.num_envs) (k % b.num_envs) ∧
    b.get_all_flattened.1 (t * b.num_envs + u) = b.get_all.1 t u ∧
    b.get_all_flattened.2.1 (t * b.num_envs + u) = b.get_all.2.1 t u ∧
    b.get_all_flattened.2.2.1 (t * b.num_envs + u) = b.get_all.2.2.1 t u ∧
    b.get_all_flattened.2.2.2.1 (t * b.num_envs + u) = b.get_all.2.2.2.1 t u ∧
    b.get_all_flattened.2.2.2.2.1 (t * b.num_envs + u) = b.get_all.2.2.2.2.1 t u ∧
    b.get_all_flattened.2.2.2.2.2.1 (t * b.num_envs + u) = b.get_all.2.2.2.2.2.1 t u ∧
    b.get_all_flattened.2.2.2.2.2.2.1 (t * b.num_envs + u) =
      b.get_all.2.2.2.2.2.2.1 t u ∧
    b.get_all_flattened.2.2.2.2.2.2.2 (t * b.num_envs + u) =
      b.get_all.2.2.2.2.2.2.2 t u := by
  have hdiv : (t * b.num_envs + u) / b.num_envs = t := by
    rw [Nat.mul_comm, Nat.mul_add_div hN, Nat.div_eq_of_lt hu, Nat.add_zero]
  have hmod : (t * b.num_envs + u) % b.num_envs = u := by
    rw [Nat.mul_comm, Nat.mul_add_mod, Nat.mod_eq_of_lt hu]
  refine ⟨?_, Nat.mod_lt _ hN, ?_, rfl, rfl, rfl, rfl, rfl, rfl, rfl, rfl,
    ?_, ?_, ?_, ?_, ?_, ?_, ?_, ?_⟩
  · exact (Nat.div_lt_iff_lt_mul hN).mpr hk
  · have h1 : t + 1 ≤ b.max_len := ht
    calc t * b.num_envs + u < t * b.num_envs + b.num_envs := by omega
      _ = (t + 1) * b.num_envs := by ring
      _ ≤ b.max_len * b.num_envs := Nat.mul_le_mul_right _ h1
  all_goals
    simp only [Buffer.get_all_flattened, Buffer.get_all, flat2, hdiv, hmod]

/-- C5 witness: the statement instantiated at a buffer with 2 units and
horizon 3, flattened index 5, timestep 2, unit 1. -/
theorem C5_flatten_order_witness :
    (5 : ℕ) / (Buffer.mk zMem zMem zMem zMem zMem zMem zMem zMem 2 3 0).num_envs <
      (Buffer.mk zMem zMem zMem zMem zMem zMem zMem zMem 2 3 0).max_len ∧
    (Buffer.mk zMem zMem zMem zMem zMem zMem zMem zMem 2 3 0).get_all_flattened.1 5 =
      (Buffer.mk zMem zMem zMem zMem zMem zMem zMem zMem 2 3 0).get_all.1 (5 / 2) (5 % 2) ∧
    (Buffer.mk zMem zMem zMem zMem zMem zMem zMem zMem 2 3 0).get_all_flattened.1 (2 * 2 + 1) =
      (Buffer.mk zMem zMem zMem zMem zMem zMem zMem zMem 2 3 0).get_all.1 2 1 := by
  have h := C5_flatten_order (Buffer.mk zMem zMem zMem zMem zMem zMem zMem zMem 2 3 0)
    5 2 1 (by decide) (by decide) (by decide) (by decide)
  exact ⟨h.1, h.2.2.2.1, h.2.2.2.2.2.2.2.2.2.2.2.1⟩

/-! ### Claim C10 -/

/-- C10: a push whose action-mask argument is omitted (None) leaves the
action-mask storage entirely unchanged — so it retains whatever values
it previously held — while the rows of all seven other fields at the
current cursor are written with the pushed values. -/
theorem C10_push_without_mask (b : Buffer) (s ns d a r v lp : ℕ → ℕ → ℝ)
    (h : b.i < b.max_len) :
    ((b.push s ns d a r v lp none).getD b).action_masks = b.action_masks ∧
    ((b.push s ns d a r v lp none).getD b).states b.i = s ∧
    ((b.push s ns d a r v lp none).getD b).next_states b.i = ns ∧
    ((b.push s ns d a r v lp none).getD b).dones b.i = d ∧
    ((b.push s ns d a r v lp none).getD b).actions b.i = a ∧
    ((b.push s ns d a r v lp none).getD b).rewards b.i = r ∧
    ((b.push s ns d a r v lp none).getD b).values b.i = v ∧
    ((b.push s ns d a r v lp none).getD b).log_probs b.i = lp := by
  refine ⟨?_, ?_, ?_, ?_, ?_, ?_, ?_, ?_⟩ <;>
    simp [Buffer.push, h]

/-- C10 witness: pushing without a mask into a buffer whose mask
storage holds 7 everywhere keeps that storage intact and writes the
other fields at the cursor. -/
theorem C10_push_without_mask_witness :
    (((Buffer.mk zMem zMem zMem zMem zMem zMem zMem sevenMem 1 4 0).push
        zRow zRow zRow zRow zRow zRow zRow none).getD
      (Buffer.mk zMem zMem zMem zMem zMem zMem zMem sevenMem 1 4 0)).action_masks =
      (Buffer.mk zMem zMem zMem zMem zMem zMem zMem sevenMem 1 4 0).action_masks ∧
    (((Buffer.mk zMem zMem zMem zMem zMem zMem zMem sevenMem 1 4 0).push
        zRow zRow zRow zRow zRow zRow zRow none).getD
      (Buffer.mk zMem zMem zMem zMem zMem zMem zMem sevenMem 1 4 0)).states
      (Buffer.mk zMem zMem zMem zMem zMem zMem zMem sevenMem 1 4 0).i = zRow := by
  have h := C10_push_without_mask
    (Buffer.mk zMem zMem zMem zMem zMem zMem zMem sevenMem 1 4 0)
    zRow zRow zRow zRow zRow zRow zRow (by decide)
  exact ⟨h.1, h.2.1⟩

/-! ### Claim C3 -/

/-- C3 counterexample: with horizon 4, 2 environments, 1 agent and
minibatch size 8, the batch size 4 * 2 * 1 = 8 is evenly divisible by
the minibatch size, yet the constructor's check fails (it tests the
horizon alone, and 4 is not a multiple of 8), so construction aborts on
a configuration the claim says must pass. -/
theorem C3_counterexample :
    ppoBatchSize 4 2 1 % 8 = 0 ∧ horizonDivisibilityCheck 4 8 = false := by
  decide

/-- C3 (amended): the constructor's divisibility check passes exactly
when the horizon alone is evenly divisible by the minibatch size; this
is strictly stronger than divisibility of the batch size, so every
configuration whose batch size is not divisible by the minibatch size
still aborts, but some configurations with divisible batch size abort
as well. -/
theorem C3_divisibility_check (h e a m : ℕ) :
    (horizonDivisibilityCheck h m = true ↔ h % m = 0) ∧
    (horizonDivisibilityCheck h m = true → ppoBatchSize h e a % m = 0) ∧
    (ppoBatchSize h e a % m ≠ 0 → horizonDivisibilityCheck h m = false) := by
  have hiff : horizonDivisibilityCheck h m = true ↔ h % m = 0 := by
    simp [horizonDivisibilityCheck]
  have himp : horizonDivisibilityCheck h m = true → ppoBatchSize h e a % m = 0 := by
    intro hc
    have hd : m ∣ h := Nat.dvd_of_mod_eq_zero (hiff.mp hc)
    have hdb : m ∣ ppoBatchSize h e a :=
      dvd_mul_of_dvd_left (dvd_mul_of_dvd_left hd e) a
    exact Nat.mod_eq_zero_of_dvd hdb
  refine ⟨hiff, himp, ?_⟩
  intro hne
  by_contra hcheck
  exact hne (himp (by simpa using hcheck))

/-- C3 witness: with horizon 4, 2 environments, 1 agent and minibatch
size 2 the check passes and the batch size 8 is divisible by 2.  -/
theorem C3_divisibility_check_witness :
    horizonDivisibilityCheck 4 2 = true ∧ ppoBatchSize 4 2 1 % 2 = 0 := by
  have h := C3_divisibility_check 4 2 1 2
  exact ⟨h.1.mpr (by decide), h.2.1 (h.1.mpr (by decide))⟩

/-! ### Claim C7 -/

theorem epochMinibatches_flatten (perm : ℕ → ℕ) (mbs : ℕ) :
    ∀ nb, (epochMinibatches perm mbs nb).flatten = (List.range (nb * mbs)).map perm := by
  intro nb
  induction nb with
  | zero => simp [epochMinibatches]
  | succ n ih =>
    rw [epochMinibatches, List.range_succ, List.map_append, List.flatten_append]
    rw [epochMinibatches] at ih
    rw [ih, Nat.succ_mul, List.range_add, List.map_append]
    simp [minibatchOf, List.map_map, Function.comp]

theorem updateMinibatches_length (perms : ℕ → ℕ → ℕ) (mbs nb : ℕ) :
    ∀ E, (updateMinibatches perms E mbs nb).length = E * nb := by
  intro E
  induction E with
  | zero => simp [updateMinibatches]
  | succ n ih =>
    rw [updateMinibatches, List.range_succ, List.map_append, List.flatten_append,
      List.length_append]
    rw [updateMinibatches] at ih
    rw [ih]
    simp [epochMinibatches, Nat.succ_mul]

/-- C7: one call of the update procedure performs exactly
`num_epochs * (batch_size / minibatch_size)` minibatch iterations (one
actor and one critic optimizer step each): every epoch takes its own
permutation and cuts it into exactly `batch_size / minibatch_size`
contiguous minibatches of size `minibatch_size`, which together cover
the whole permuted batch in order. -/
theorem C7_update_schedule (perms : ℕ → ℕ → ℕ) (E batch mbs : ℕ) (hdvd : mbs ∣ batch) :
    (updateMinibatches perms E mbs (minibatchNbPerBatch batch mbs)).length =
      E * (batch / mbs) ∧
    (∀ lmb ∈ updateMinibatches perms E mbs (minibatchNbPerBatch batch mbs),
      lmb.length = mbs) ∧
    (∀ e, (epochMinibatches (perms e) mbs (minibatchNbPerBatch batch mbs)).flatten =
      (List.range batch).map (perms e)) := by
  refine ⟨?_, ?_, ?_⟩
  · exact updateMinibatches_length perms mbs (minibatchNbPerBatch batch mbs) E
  · intro lmb hmem
    simp only [updateMinibatches, List.mem_flatten, List.mem_map,
      epochMinibatches] at hmem
    obtain ⟨epoch, ⟨e, _, rfl⟩, hin⟩ := hmem
    obtain ⟨m, _, rfl⟩ := List.mem_map.mp hin
    simp [minibatchOf]
  · intro e
    rw [epochMinibatches_flatten, minibatchNbPerBatch, Nat.div_mul_cancel hdvd]

/-- C7 witness: batch size 8, minibatch size 4 and 2 epochs yield
exactly 4 minibatch gradient updates. -/
theorem C7_update_schedule_witness :
    (updateMinibatches idPerm 2 4 (minibatchNbPerBatch 8 4)).length = 4 := by
  have h := (C7_update_schedule idPerm 2 8 4 ⟨2, rfl⟩).1
  simpa using h

/-! ### Claim C6 -/

/-- C6: per minibatch, the probability ratio is
`r = exp(new_log_prob - old_log_prob)`, the clipped surrogate objective
is the mean of `min(r * A, clip(r, 1-eps, 1+eps) * A)` (written with
the clip unfolded to `max (1-eps) (min r (1+eps))`, to which the
clamp is equal for nonnegative `eps`), the value loss is the mean
squared error against the precomputed returns, the entropy bonus is the
mean entropy, and the quantity handed to the gradient step is exactly
`-L_clip + vf_coef * L_vf - ent_coef * L_S`. -/
theorem C6_loss_formula (M : ℕ) (newLP oldLP adv newValues ret entropy : ℕ → ℝ)
    (eps vf_coef ent_coef : ℝ) (heps : 0 ≤ eps) :
    (∀ j, ratioOf newLP oldLP j = Real.exp (newLP j - oldLP j)) ∧
    LclipOf M newLP oldLP adv eps =
      (∑ j ∈ Finset.range M,
        min (ratioOf newLP oldLP j * adv j)
          (max (1 - eps) (min (ratioOf newLP oldLP j) (1 + eps)) * adv j)) / M ∧
    LvfOf M newValues ret = (∑ j ∈ Finset.range M, (newValues j - ret j) ^ 2) / M ∧
    LSOf M entropy = (∑ j ∈ Finset.range M, entropy j) / M ∧
    ppoLoss M newLP oldLP adv newValues ret entropy eps vf_coef ent_coef =
      -LclipOf M newLP oldLP adv eps + vf_coef * LvfOf M newValues ret -
        ent_coef * LSOf M entropy := by
  have hclamp : ∀ x : ℝ, clampR x (1 - eps) (1 + eps) =
      max (1 - eps) (min x (1 + eps)) := by
    intro x
    simp only [clampR, min_def, max_def]
    split_ifs <;> linarith
  refine ⟨fun j => rfl, ?_, rfl, rfl, rfl⟩
  unfold LclipOf batchMean
  congr 1
  exact Finset.sum_congr rfl fun j _ => by simp only [hclamp]

/-- C6 witness: the mean-squared-error and total-loss equations
instantiated at a singleton minibatch of zeros with `eps = 0`. -/
theorem C6_loss_formula_witness :
    LvfOf 1 zSeq zSeq = (∑ j ∈ Finset.range 1, (zSeq j - zSeq j) ^ 2) / ((1 : ℕ) : ℝ) ∧
    ppoLoss 1 zSeq zSeq zSeq zSeq zSeq zSeq 0 0 0 =
      -LclipOf 1 zSeq zSeq zSeq 0 + 0 * LvfOf 1 zSeq zSeq - 0 * LSOf 1 zSeq := by
  have h := C6_loss_formula 1 zSeq zSeq zSeq zSeq zSeq zSeq 0 0 0 (le_refl 0)
  exact ⟨h.2.2.1, h.2.2.2.2⟩

/-! ### Claim C9 -/

/-- C9 counterexample: at a step where the done and the truncated
signal are both true, the stored flag is 1, not 2 (NumPy boolean
addition is logical disjunction), and the GAE factor
`1 - done_next` for the preceding timestep is 0, not -1. -/
theorem C9_counterexample :
    storedDone true true ≠ 2 ∧ 1 - storedDone true true ≠ -1 := by
  constructor
  · simp only [storedDone, npBoolAdd, Bool.or_self, if_true]
    norm_num
  · simp only [storedDone, npBoolAdd, Bool.or_self, if_true]
    norm_num

/-- C9 (amended): the done flag stored in the buffer is the boolean
disjunction of the environment's done and truncated signals (the `+`
of the training loop acts on NumPy boolean arrays, where addition is
logical or): when both are true the stored flag is 1, the GAE factor
`1 - done_next` for the preceding timestep is 0, and the recursive
advantage contribution is cut rather than sign-flipped. -/
theorem C9_done_flag (done truncated : Bool) (g l A delta : ℝ) :
    storedDone done truncated = (if done ∨ truncated then 1 else 0) ∧
    storedDone true true = 1 ∧
    1 - storedDone true true = 0 ∧
    delta + g * l * A * (1 - storedDone true true) = delta := by
  have h1 : storedDone true true = 1 := by
    simp [storedDone, npBoolAdd]
  refine ⟨?_, h1, by rw [h1]; ring, by rw [h1]; ring⟩
  by_cases hd : done <;> by_cases htr : truncated <;>
    simp [storedDone, npBoolAdd, hd, htr]

/-! ### Claim C2 -/

/-- C2 counterexample: with gamma = 0, lambda = 0, horizon 3, one unit,
rewards 2, 0, -2 and zero values, the raw GAE advantages are 2, 0, -2;
the update procedure normalizes them (sample standard deviation 2)
before adding the values, so the return at index 0 is
2 / (2 + 1e-8), not the raw advantage plus value 2. -/
theorem C2_counterexample :
    updateReturns 0 0 3 1 cexRewards zUnit zUnit zBoot 0 ≠
      flat2 1 (computeAdvantagesV 0 0 3 cexRewards zUnit zUnit zBoot) 0 +
        flat2 1 zUnit 0 := by
  have hadv : ∀ t, t < 3 →
      computeAdvantagesV 0 0 3 cexRewards zUnit zUnit zBoot t 0 = cexRewards t 0 := by
    intro t ht
    show computeAdvantages 0 0 3 (fun s => cexRewards s 0) (fun s => zUnit s 0)
      (fun s => zUnit s 0) (zBoot 0) t = cexRewards t 0
    rw [computeAdvantages_eq]
    simp only [ht, if_true]
    rw [gaeClosed_eq]
    simp [ht, deltasOf, zUnit]
  set F := flat2 1 (computeAdvantagesV 0 0 3 cexRewards zUnit zUnit zBoot) with hF
  have h0 : F 0 = 2 := by
    rw [hF]
    show computeAdvantagesV 0 0 3 cexRewards zUnit zUnit zBoot 0 0 = 2
    rw [hadv 0 (by norm_num)]
    simp [cexRewards]
  have h1 : F 1 = 0 := by
    rw [hF]
    show computeAdvantagesV 0 0 3 cexRewards zUnit zUnit zBoot 1 0 = 0
    rw [hadv 1 (by norm_num)]
    simp [cexRewards]
  have h2 : F 2 = -2 := by
    rw [hF]
    show computeAdvantagesV 0 0 3 cexRewards zUnit zUnit zBoot 2 0 = -2
    rw [hadv 2 (by norm_num)]
    simp [cexRewards]
  have hmean : batchMean (3 * 1) F = 0 := by
    rw [batchMean]
    norm_num [Finset.sum_range_succ, h0, h1, h2]
  have hstd : batchStd (3 * 1) F = 2 := by
    rw [batchStd]
    norm_num [Finset.sum_range_succ, hmean, h0, h1, h2]
    rw [show (4 : ℝ) = 2 ^ 2 by norm_num]
    exact Real.sqrt_sq (by norm_num)
  show normalizedAdvantages (3 * 1) F 0 + flat2 1 zUnit 0 ≠ F 0 + flat2 1 zUnit 0
  rw [normalizedAdvantages]
  simp only [hmean, hstd, h0]
  show (2 - 0) / (2 + 1e-8) + zUnit 0 0 ≠ 2 + zUnit 0 0
  simp only [zUnit]
  norm_num

/-- C2 (amended): the returns used as the critic's regression targets
equal normalized advantage plus value at each flattened index, where
the normalization subtracts the batch mean of the GAE advantages and
divides by their unbiased sample standard deviation plus 1e-8. -/
theorem C2_returns_normalized (g l : ℝ) (T N : ℕ)
    (rewards values dones : ℕ → ℕ → ℝ) (bootstrap : ℕ → ℝ) (k n : ℕ) (adv : ℕ → ℝ) :
    updateReturns g l T N rewards values dones bootstrap k =
      normalizedAdvantages (T * N)
        (flat2 N (computeAdvantagesV g l T rewards values dones bootstrap)) k
        + flat2 N values k ∧
    normalizedAdvantages n adv k =
      (adv k - (∑ j ∈ Finset.range n, adv j) / n) /
        (Real.sqrt ((∑ j ∈ Finset.range n,
            (adv j - (∑ i ∈ Finset.range n, adv i) / n) ^ 2) / ((n : ℝ) - 1)) + 1e-8) :=
  ⟨rfl, rfl⟩

end RL
